import Mathlib

/-!
Verification development for the task1 CSV aggregation engine
(`csv_processor.py`): a shallow embedding of the five operations
(`_validate_csv_and_columns`, `extract_unique_values`,
`extract_unique_values_pandas`, `count_by_columns`, `top_n_values`,
`values_in_date_range`) together with theorems settling the frozen
claims about them.

Modelling conventions:
- A CSV source is its parsed form: a header (list of column names) and a
  list of data rows, each row a list of raw field strings.
- `csv.DictReader` row-dict lookup is modelled by `dictCell`: the value
  paired with the last occurrence of the column name in the header
  (Python `dict(zip(...))` keeps the last duplicate), and `none` when the
  row is shorter than the header (DictReader fills missing keys with the
  default `restval = None`).
- Python exceptions are an explicit error type `PyErr`; each constructor
  corresponds to one `raise` site and carries the data interpolated into
  the message there.
- Strings are Lean `String`; Python `str.replace(" ", "")`,
  `str.strip()`, `str.lower()` are modelled character-wise on `.data`
  (ASCII case mapping; digits in dates are modelled as ASCII digits).
-/

deriving instance DecidableEq for Except

/-- The whitespace characters Python `str.strip()` (and `\s` in the
`strptime` regexes) treat as spaces, restricted to ASCII. -/
def isPySpace (c : Char) : Bool :=
  c == ' ' || c == '\t' || c == '\n' || c == '\x0b' || c == '\x0c' || c == '\r'

/-- ASCII lower-casing of one character, as Python `str.lower()` acts on
the ASCII range. -/
def lowerChar (c : Char) : Char :=
  match c with
  | 'A' => 'a' | 'B' => 'b' | 'C' => 'c' | 'D' => 'd' | 'E' => 'e'
  | 'F' => 'f' | 'G' => 'g' | 'H' => 'h' | 'I' => 'i' | 'J' => 'j'
  | 'K' => 'k' | 'L' => 'l' | 'M' => 'm' | 'N' => 'n' | 'O' => 'o'
  | 'P' => 'p' | 'Q' => 'q' | 'R' => 'r' | 'S' => 's' | 'T' => 't'
  | 'U' => 'u' | 'V' => 'v' | 'W' => 'w' | 'X' => 'x' | 'Y' => 'y'
  | 'Z' => 'z'
  | c => c

/-- Python `value.lower()` (ASCII range). -/
def strLower (s : String) : String := ⟨s.data.map lowerChar⟩

/-- Python `value.replace(" ", "")`: remove every space character
(U+0020 only — not tabs or other whitespace). -/
def stripSpaces (s : String) : String := ⟨s.data.filter (· != ' ')⟩

/-- Python `value.strip()`: drop leading and trailing whitespace. -/
def pyStrip (s : String) : String :=
  ⟨((s.data.dropWhile isPySpace).reverse.dropWhile isPySpace).reverse⟩

/-- Python `csv_file.lower().endswith(".csv")`. -/
def hasCsvExt (path : String) : Bool :=
  ".csv".data.isSuffixOf (strLower path).data

/-- Ordinal (code-point lexicographic) strict comparison of character
lists, as Python compares strings. -/
def listCharLt : List Char → List Char → Bool
  | [], [] => false
  | [], _ :: _ => true
  | _ :: _, [] => false
  | a :: as, b :: bs =>
    if a.toNat < b.toNat then true
    else if b.toNat < a.toNat then false
    else listCharLt as bs

/-- Ordinal non-strict comparison of character lists. -/
def listCharLe : List Char → List Char → Bool
  | [], _ => true
  | _ :: _, [] => false
  | a :: as, b :: bs =>
    if a.toNat < b.toNat then true
    else if b.toNat < a.toNat then false
    else listCharLe as bs

/-- `a < b` for strings, ordinal comparison (Python `<`). -/
def strLtB (a b : String) : Bool := listCharLt a.data b.data

/-- `a ≤ b` for strings, ordinal comparison. -/
def strLeB (a b : String) : Bool := listCharLe a.data b.data

/-- Stable insertion used by `sortBy`: `x` is placed in front of the
first element `y` with `le x y`. -/
def insertBy (le : α → α → Bool) (x : α) : List α → List α
  | [] => [x]
  | y :: ys => if le x y then x :: y :: ys else y :: insertBy le x ys

/-- Stable insertion sort: for a total preorder `le` this produces the
same list as Python's stable `sorted` (elements tied under `le` keep
their input order). -/
def sortBy (le : α → α → Bool) : List α → List α
  | [] => []
  | x :: xs => insertBy le x (sortBy le xs)

/-- Comparator placing higher counts first; used to model
`sorted(..., key=lambda item: item[1], reverse=True)` and
`Counter.most_common` (both stable descending sorts on the count). -/
def countGeB (a b : α × Nat) : Bool := decide (b.2 ≤ a.2)

/-- A parsed tabular source: the header row and the data rows
(each a list of raw field strings). -/
structure CsvData where
  header : List String
  rows : List (List String)
deriving DecidableEq

/-- A CSV source handle: its path (checked for the `.csv` extension),
whether opening it succeeds, and its parsed content. -/
structure CsvSource where
  path : String
  readable : Bool
  data : CsvData
deriving DecidableEq

/-- One Python exception per `raise` site of `csv_processor.py`, carrying
the data interpolated into the message there. -/
inductive PyErr where
  /-- `ValueError: The file ... is not a valid CSV file.` -/
  | notCsvFile
  /-- `FileNotFoundError: The file ... does not exist.` -/
  | fileNotFound
  /-- `ValueError: The CSV file ... is empty.` -/
  | emptyCsv
  /-- `ValueError: The target column name cannot be empty or null.` -/
  | emptyColumnName
  /-- `ValueError: The specified column ... does not exist in the CSV file.` -/
  | columnNotFound (column : String)
  /-- `ValueError` from `strptime` on a window bound. -/
  | timeDataMismatch (value : String)
  /-- `ValueError: Invalid date format in column ...: ...` -/
  | invalidDateFormat (column : String) (value : String)
  /-- `AttributeError`: `None` has no `replace` (missing cell hit by
  `row[column].replace`). -/
  | noneHasNoReplace
deriving DecidableEq

/-- Index of the last occurrence of `c` in `header` (Python
`dict(zip(fieldnames, row))` keeps the value of the last duplicate). -/
def lastIdx (header : List String) (c : String) : Option Nat :=
  (List.range header.length).foldl
    (fun acc i => if header.get? i = some c then some i else acc) none

/-- The value `csv.DictReader` gives for column `c` of row `fields`:
the field at the column's header position, or `none` (`restval = None`)
when the row is shorter than the header or the column is absent. -/
def dictCell (header fields : List String) (c : String) : Option String :=
  match lastIdx header c with
  | none => none
  | some i => fields.get? i

/-- The per-column loop of `_validate_csv_and_columns`: for each required
column, in list order, first `if not column or column.strip() == ""`,
then `if column not in reader.fieldnames`. A `none` column models a
Python `None` argument. -/
def checkCols (header : List String) : List (Option String) → Except PyErr Unit
  | [] => .ok ()
  | c :: rest =>
    match c with
    | none => .error .emptyColumnName
    | some s =>
      if pyStrip s = "" then .error .emptyColumnName
      else if s ∈ header then checkCols header rest
      else .error (.columnNotFound s)

/-- `_validate_csv_and_columns(csv_file, required_columns)`: extension
check, then openability, then non-empty header, then the per-column
loop. Reads no data row. -/
def validate_csv_and_columns (src : CsvSource) (cols : List (Option String)) :
    Except PyErr Unit :=
  if !hasCsvExt src.path then .error .notCsvFile
  else if !src.readable then .error .fileNotFound
  else if src.data.header = [] then .error .emptyCsv
  else checkCols src.data.header cols

/-- Membership-tested append: how one element enters the accumulated set
of distinct values (insertion order retained; Python uses a `set`, whose
order is irrelevant after the final `sorted`). -/
def uniqAdd (acc : List String) (v : String) : List String :=
  if v ∈ acc then acc else acc ++ [v]

/-- The per-value transform of `extract_unique_values`: `replace(" ", "")`
when `normalize`, then `.lower()` when `lowercase`. -/
def xform (normalize lowercase : Bool) (v : String) : String :=
  let v1 := if normalize then stripSpaces v else v
  if lowercase then strLower v1 else v1

/-- The row scan of `extract_unique_values`: `value = row.get(target_column, "")`,
`if value:` (both `None` and `""` are skipped), then the transform, then
insertion into the set of distinct values. -/
def uniqScan (header : List String) (col : String) (normalize lowercase : Bool) :
    List (List String) → List String → List String
  | [], acc => acc
  | r :: rs, acc =>
    match dictCell header r col with
    | none => uniqScan header col normalize lowercase rs acc
    | some v =>
      if v = "" then uniqScan header col normalize lowercase rs acc
      else uniqScan header col normalize lowercase rs (uniqAdd acc (xform normalize lowercase v))

/-- `extract_unique_values(csv_file, target_column, normalize, lowercase)`:
validate, scan every row collecting distinct transformed values, return
them sorted ascending. -/
def extract_unique_values (src : CsvSource) (col : String)
    (normalize lowercase : Bool) : Except PyErr (List String) :=
  match validate_csv_and_columns src [some col] with
  | .error e => .error e
  | .ok _ =>
    .ok (sortBy strLeB (uniqScan src.data.header col normalize lowercase src.data.rows []))

/-- The per-cell transform of `count_by_columns`, i.e. the Python
conditional expression
`row[column].replace(" ", "").lower() if lowercase else row[column].replace(" ", "") if normalize else row[column]`
(which right-associates: when `lowercase` is true the value is stripped
and lowered regardless of `normalize`). A missing cell (`None`) hit by
`.replace` raises `AttributeError`. -/
def countTransform (normalize lowercase : Bool) (cell : Option String) :
    Except PyErr (Option String) :=
  if lowercase then
    match cell with
    | some v => .ok (some (strLower (stripSpaces v)))
    | none => .error .noneHasNoReplace
  else if normalize then
    match cell with
    | some v => .ok (some (stripSpaces v))
    | none => .error .noneHasNoReplace
  else .ok cell

/-- The tuple `key` built for one row of `count_by_columns`: transformed
cells of the grouped columns, in the caller-given order (the generator
is evaluated left to right, so the first failing cell raises). -/
def buildKey (header : List String) (cols : List String)
    (normalize lowercase : Bool) (r : List String) :
    Except PyErr (List (Option String)) :=
  match cols with
  | [] => .ok []
  | c :: cs =>
    match countTransform normalize lowercase (dictCell header r c) with
    | .error e => .error e
    | .ok v =>
      match buildKey header cs normalize lowercase r with
      | .error e => .error e
      | .ok vs => .ok (v :: vs)

/-- `count_data[key] += 1` on a `Counter`: bump an existing key in place,
or append a fresh key (insertion order) with count 1. -/
def incr [DecidableEq κ] : List (κ × Nat) → κ → List (κ × Nat)
  | [], k => [(k, 1)]
  | (k0, c) :: rest, k =>
    if k0 = k then (k0, c + 1) :: rest else (k0, c) :: incr rest k

/-- The row loop of `count_by_columns`: build each row's key and count it. -/
def countRows (header : List String) (cols : List String)
    (normalize lowercase : Bool) :
    List (List String) → List (List (Option String) × Nat) →
    Except PyErr (List (List (Option String) × Nat))
  | [], acc => .ok acc
  | r :: rs, acc =>
    match buildKey header cols normalize lowercase r with
    | .error e => .error e
    | .ok k => countRows header cols normalize lowercase rs (incr acc k)

/-- `count_by_columns(csv_file, group_by_columns, normalize, lowercase)`:
validate, count every row's key, return
`dict(sorted(count_data.items(), key=lambda item: item[1], reverse=True))`
— the counter entries stably sorted by descending count. -/
def count_by_columns (src : CsvSource) (cols : List String)
    (normalize lowercase : Bool) :
    Except PyErr (List (List (Option String) × Nat)) :=
  match validate_csv_and_columns src (cols.map some) with
  | .error e => .error e
  | .ok _ =>
    match countRows src.data.header cols normalize lowercase src.data.rows [] with
    | .error e => .error e
    | .ok cnt => .ok (sortBy countGeB cnt)

/-- Python `dict` built from a pair sequence: later pairs overwrite the
value at the key's first position; fresh keys append. -/
def dictInsert [DecidableEq κ] : List (κ × β) → κ → β → List (κ × β)
  | [], k, v => [(k, v)]
  | (k0, v0) :: rest, k, v =>
    if k0 = k then (k0, v) :: rest else (k0, v0) :: dictInsert rest k v

/-- `{k[0]: v for k, v in count_data.items()}` then `Counter(...)`:
an ordered dict keyed by each singleton tuple's first element. -/
def dictOfPairs [DecidableEq κ] (l : List (κ × β)) : List (κ × β) :=
  l.foldl (fun acc kv => dictInsert acc kv.1 kv.2) []

/-- `top_n_values(csv_file, target_column, n, normalize, lowercase)`:
validate, run `count_by_columns` on the single column, collapse each
singleton key to its first element, and take
`Counter(...).most_common(n)` — the stable descending sort of the counter
truncated to `n` entries (`heapq.nlargest` yields `[]` for `n ≤ 0`). -/
def top_n_values (src : CsvSource) (col : String) (n : Int)
    (normalize lowercase : Bool) : Except PyErr (List (Option String × Nat)) :=
  match validate_csv_and_columns src [some col] with
  | .error e => .error e
  | .ok _ =>
    match count_by_columns src [col] normalize lowercase with
    | .error e => .error e
    | .ok cd =>
      let counter := dictOfPairs (cd.map (fun kc => (kc.1.headD none, kc.2)))
      .ok ((sortBy countGeB counter).take n.toNat)

/-- A parsed `datetime`: year, month, day, hour, minute. `strptime`
with format `%m/%d/%Y` leaves hour and minute at 0. -/
structure DateTimeVal where
  y : Nat
  m : Nat
  d : Nat
  hh : Nat
  mm : Nat
deriving DecidableEq

/-- `datetime` comparison: lexicographic on
(year, month, day, hour, minute). -/
def dtLeP (a b : DateTimeVal) : Prop :=
  a.y < b.y ∨ (a.y = b.y ∧ (a.m < b.m ∨ (a.m = b.m ∧ (a.d < b.d ∨ (a.d = b.d ∧
    (a.hh < b.hh ∨ (a.hh = b.hh ∧ a.mm ≤ b.mm)))))))

instance (a b : DateTimeVal) : Decidable (dtLeP a b) := by
  unfold dtLeP; infer_instance

/-- `datetime` comparison as a Boolean test (`start <= date_obj <= end`). -/
def dtLe (a b : DateTimeVal) : Bool := decide (dtLeP a b)

/-- Calendar-date comparison: lexicographic on (year, month, day) only,
the time-of-day ignored. -/
def dateLeP (a b : DateTimeVal) : Prop :=
  a.y < b.y ∨ (a.y = b.y ∧ (a.m < b.m ∨ (a.m = b.m ∧ a.d ≤ b.d)))

instance (a b : DateTimeVal) : Decidable (dateLeP a b) := by
  unfold dateLeP; infer_instance

/-- Boolean calendar-date comparison. -/
def dateLe (a b : DateTimeVal) : Bool := decide (dateLeP a b)

/-- Strict calendar-date comparison on (year, month, day). -/
def dateLtP (a b : DateTimeVal) : Prop :=
  a.y < b.y ∨ (a.y = b.y ∧ (a.m < b.m ∨ (a.m = b.m ∧ a.d < b.d)))

instance (a b : DateTimeVal) : Decidable (dateLtP a b) := by
  unfold dateLtP; infer_instance

/-- Boolean strict calendar-date comparison. -/
def dateLt (a b : DateTimeVal) : Bool := decide (dateLtP a b)

/-- Leading decimal digits of a character list, and the remainder. -/
def takeDigits : List Char → List Char × List Char
  | [] => ([], [])
  | c :: cs =>
    if c.isDigit then
      let (ds, r) := takeDigits cs
      (c :: ds, r)
    else ([], c :: cs)

/-- Numeric value of a digit list. -/
def numOf (ds : List Char) : Nat := ds.foldl (fun a c => a * 10 + (c.toNat - 48)) 0

/-- One 1- or 2-digit `strptime` field (`%m`, `%d`, `%H`, `%M`): the
regex alternatives accept exactly a run of one or two digits whose value
lies in `[lo, hi]`, followed by a non-digit. -/
def parseField2 (lo hi : Nat) (cs : List Char) : Option (Nat × List Char) :=
  let (ds, r) := takeDigits cs
  if ds.length = 0 ∨ 2 < ds.length then none
  else
    let v := numOf ds
    if lo ≤ v ∧ v ≤ hi then some (v, r) else none

/-- The `%Y` field: exactly four digits; `datetime` then requires the
year to be at least `MINYEAR = 1`. -/
def parseYear (cs : List Char) : Option (Nat × List Char) :=
  let (ds, r) := takeDigits cs
  if ds.length = 4 ∧ 1 ≤ numOf ds then some (numOf ds, r) else none

/-- A literal character of the format string. -/
def expectChar (c : Char) : List Char → Option (List Char)
  | [] => none
  | x :: xs => if x = c then some xs else none

/-- Whitespace in a `strptime` format matches one or more whitespace
characters. -/
def skipWs1 (cs : List Char) : Option (List Char) :=
  match cs.span isPySpace with
  | ([], _) => none
  | (_ :: _, r) => some r

/-- Gregorian leap-year rule used by `datetime`. -/
def isLeap (y : Nat) : Bool :=
  (y % 4 == 0 && y % 100 != 0) || y % 400 == 0

/-- Days in a month, as `datetime` validates the day field. -/
def daysInMonth (m y : Nat) : Nat :=
  if m = 2 then (if isLeap y then 29 else 28)
  else if m = 4 ∨ m = 6 ∨ m = 9 ∨ m = 11 then 30
  else 31

/-- `datetime.strptime(s, "%m/%d/%Y")`: the whole string must be
consumed, and the day must exist in the month. -/
def parseMDY (s : String) : Option DateTimeVal :=
  match parseField2 1 12 s.data with
  | none => none
  | some (m, r1) =>
    match expectChar '/' r1 with
    | none => none
    | some r2 =>
      match parseField2 1 31 r2 with
      | none => none
      | some (d, r3) =>
        match expectChar '/' r3 with
        | none => none
        | some r4 =>
          match parseYear r4 with
          | none => none
          | some (y, r5) =>
            if r5 = [] ∧ d ≤ daysInMonth m y then some ⟨y, m, d, 0, 0⟩ else none

/-- `datetime.strptime(s, "%m/%d/%Y %H:%M")`. -/
def parseMDYHM (s : String) : Option DateTimeVal :=
  match parseField2 1 12 s.data with
  | none => none
  | some (m, r1) =>
    match expectChar '/' r1 with
    | none => none
    | some r2 =>
      match parseField2 1 31 r2 with
      | none => none
      | some (d, r3) =>
        match expectChar '/' r3 with
        | none => none
        | some r4 =>
          match parseYear r4 with
          | none => none
          | some (y, r5) =>
            match skipWs1 r5 with
            | none => none
            | some r6 =>
              match parseField2 0 23 r6 with
              | none => none
              | some (hh, r7) =>
                match expectChar ':' r7 with
                | none => none
                | some r8 =>
                  match parseField2 0 59 r8 with
                  | none => none
                  | some (mi, r9) =>
                    if r9 = [] ∧ d ≤ daysInMonth m y then some ⟨y, m, d, hh, mi⟩ else none

/-- Write a value into a Python dict modelled as an association list:
overwrite in place if the key exists, else append. -/
def assocSet [DecidableEq κ] : List (κ × β) → κ → β → List (κ × β)
  | [], k, v => [(k, v)]
  | (k0, v0) :: rest, k, v =>
    if k0 = k then (k0, v) :: rest else (k0, v0) :: assocSet rest k v

/-- The projection built for one qualifying row:
`{col: row[col] for col in target_columns}` then
`result[date_column] = date_value`. -/
def project (header : List String) (r : List String) (dateCol : String)
    (targetCols : List String) (dateValue : String) :
    List (String × Option String) :=
  assocSet
    (targetCols.foldl (fun acc c => assocSet acc c (dictCell header r c)) [])
    dateCol (some dateValue)

/-- The row loop of `values_in_date_range` with the code's qualification
test `start <= date_obj <= end` (full `datetime` comparison): an empty or
missing date cell skips the row; a non-empty unparseable one aborts with
`Invalid date format ...`; a qualifying row's projection is appended. -/
def dateRows (header : List String) (dateCol : String)
    (targetCols : List String) (s e : DateTimeVal) :
    List (List String) → Except PyErr (List (List (String × Option String)))
  | [] => .ok []
  | r :: rs =>
    match dictCell header r dateCol with
    | none => dateRows header dateCol targetCols s e rs
    | some v =>
      if v = "" then dateRows header dateCol targetCols s e rs
      else
        match parseMDYHM v with
        | none => .error (.invalidDateFormat dateCol v)
        | some dt =>
          if dtLe s dt && dtLe dt e then
            match dateRows header dateCol targetCols s e rs with
            | .error err => .error err
            | .ok rest => .ok (project header r dateCol targetCols v :: rest)
          else dateRows header dateCol targetCols s e rs

/-- `values_in_date_range(csv_file, date_column, start_date, end_date, target_columns)`:
validate `[date_column] + target_columns`, parse the two window bounds
with `%m/%d/%Y`, then scan the rows. -/
def values_in_date_range (src : CsvSource) (dateCol : String)
    (startS endS : String) (targetCols : List String) :
    Except PyErr (List (List (String × Option String))) :=
  match validate_csv_and_columns src (some dateCol :: targetCols.map some) with
  | .error e => .error e
  | .ok _ =>
    match parseMDY startS with
    | none => .error (.timeDataMismatch startS)
    | some s =>
      match parseMDY endS with
      | none => .error (.timeDataMismatch endS)
      | some e => dateRows src.data.header dateCol targetCols s e src.data.rows

/-- The row loop of `values_in_date_range` under the claimed
calendar-date reading, written from the amended claim: identical
skip/abort handling, but a row qualifies when `start <= date_obj <= end`
holds of the parsed timestamp compared against the midnight bounds —
equivalently, its date component is at least `startDate` and either
strictly before `endDate` or exactly the `endDate` midnight instant. -/
def dateRowsDateSpec (header : List String) (dateCol : String)
    (targetCols : List String) (s e : DateTimeVal) :
    List (List String) → Except PyErr (List (List (String × Option String)))
  | [] => .ok []
  | r :: rs =>
    match dictCell header r dateCol with
    | none => dateRowsDateSpec header dateCol targetCols s e rs
    | some v =>
      if v = "" then dateRowsDateSpec header dateCol targetCols s e rs
      else
        match parseMDYHM v with
        | none => .error (.invalidDateFormat dateCol v)
        | some dt =>
          if dateLe s dt && (dateLt dt e || decide (dt = e)) then
            match dateRowsDateSpec header dateCol targetCols s e rs with
            | .error err => .error err
            | .ok rest => .ok (project header r dateCol targetCols v :: rest)
          else dateRowsDateSpec header dateCol targetCols s e rs

/-- `values_in_date_range` under the amended claim's calendar-date
qualification test (see `dateRowsDateSpec`); to be proved equal to the
code's version. -/
def values_in_date_range_dateSpec (src : CsvSource) (dateCol : String)
    (startS endS : String) (targetCols : List String) :
    Except PyErr (List (List (String × Option String))) :=
  match validate_csv_and_columns src (some dateCol :: targetCols.map some) with
  | .error e => .error e
  | .ok _ =>
    match parseMDY startS with
    | none => .error (.timeDataMismatch startS)
    | some s =>
      match parseMDY endS with
      | none => .error (.timeDataMismatch endS)
      | some e => dateRowsDateSpec src.data.header dateCol targetCols s e src.data.rows

/-- `Except` success as a Boolean (used to state hypotheses decidably). -/
def exceptOk : Except ε α → Bool
  | .ok _ => true
  | .error _ => false

/-- A row whose date cell would not abort `values_in_date_range`:
missing, empty, or parseable in `%m/%d/%Y %H:%M`. -/
def rowDateOk (header : List String) (dateCol : String) (r : List String) : Bool :=
  match dictCell header r dateCol with
  | none => true
  | some v => v == "" || (parseMDYHM v).isSome

/-- Witness that an output value of `extract_unique_values` originates
from some row's non-empty raw cell via the flag transform. -/
def hasOrigin (src : CsvSource) (col : String) (normalize lowercase : Bool)
    (v : String) : Bool :=
  src.data.rows.any (fun r =>
    match dictCell src.data.header r col with
    | none => false
    | some raw => raw != "" && (xform normalize lowercase raw == v))

/-- `extract_unique_values` with rows replaced — used to state that
validation reads no data row. -/
def withRows (src : CsvSource) (rows : List (List String)) : CsvSource :=
  ⟨src.path, src.readable, ⟨src.data.header, rows⟩⟩

/-- A required-column argument that passes both per-column checks of the
validator. -/
def colPass (header : List String) (c : Option String) : Bool :=
  match c with
  | none => false
  | some s => pyStrip s != "" && decide (s ∈ header)


theorem insertBy_perm (le : α → α → Bool) (x : α) (l : List α) :
    List.Perm (insertBy le x l) (x :: l) := by
  induction l with
  | nil => simp [insertBy]
  | cons y ys ih =>
    simp only [insertBy]
    split
    · exact List.Perm.refl _
    · exact (ih.cons y).trans (List.Perm.swap x y ys)

theorem sortBy_perm (le : α → α → Bool) (l : List α) : List.Perm (sortBy le l) l := by
  induction l with
  | nil => simp [sortBy]
  | cons x xs ih => exact (insertBy_perm le x (sortBy le xs)).trans (ih.cons x)

theorem mem_insertBy (le : α → α → Bool) (x a : α) (l : List α) :
    a ∈ insertBy le x l ↔ a = x ∨ a ∈ l := by
  constructor
  · intro h
    have := (insertBy_perm le x l).subset h
    simpa using this
  · intro h
    apply (insertBy_perm le x l).symm.subset
    simpa using h

theorem pairwise_insertBy (le : α → α → Bool)
    (htot : ∀ a b, le a b = true ∨ le b a = true)
    (htr : ∀ a b c, le a b = true → le b c = true → le a c = true)
    (x : α) (l : List α) (h : l.Pairwise (fun a b => le a b = true)) :
    (insertBy le x l).Pairwise (fun a b => le a b = true) := by
  induction l with
  | nil => simp [insertBy]
  | cons y ys ih =>
    rw [List.pairwise_cons] at h
    obtain ⟨hy, hys⟩ := h
    simp only [insertBy]
    by_cases hxy : le x y = true
    · rw [if_pos hxy]
      refine List.Pairwise.cons ?_ (List.Pairwise.cons hy hys)
      intro z hz
      rcases List.mem_cons.mp hz with rfl | hz
      · exact hxy
      · exact htr x y z hxy (hy z hz)
    · rw [if_neg hxy]
      refine List.Pairwise.cons ?_ (ih hys)
      intro z hz
      rcases (mem_insertBy le x z ys).mp hz with heq | hz
      · rw [heq]
        rcases htot x y with h1 | h1
        · exact absurd h1 hxy
        · exact h1
      · exact hy z hz

theorem sortBy_pairwise (le : α → α → Bool)
    (htot : ∀ a b, le a b = true ∨ le b a = true)
    (htr : ∀ a b c, le a b = true → le b c = true → le a c = true)
    (l : List α) : (sortBy le l).Pairwise (fun a b => le a b = true) := by
  induction l with
  | nil => simp [sortBy]
  | cons x xs ih => exact pairwise_insertBy le htot htr x _ ih

theorem insertBy_eq_cons (le : α → α → Bool) (x : α) (l : List α)
    (h : ∀ y ∈ l, le x y = true) : insertBy le x l = x :: l := by
  cases l with
  | nil => rfl
  | cons y ys => simp [insertBy, h y (List.mem_cons_self y ys)]

theorem sortBy_eq_self (le : α → α → Bool) (l : List α)
    (h : l.Pairwise (fun a b => le a b = true)) : sortBy le l = l := by
  induction l with
  | nil => rfl
  | cons x xs ih =>
    rw [List.pairwise_cons] at h
    obtain ⟨hx, hxs⟩ := h
    simp only [sortBy, ih hxs]
    exact insertBy_eq_cons le x xs hx

theorem countGeB_total (a b : α × Nat) : countGeB a b = true ∨ countGeB b a = true := by
  simp only [countGeB, decide_eq_true_eq]
  omega

theorem countGeB_trans (a b c : α × Nat) (h1 : countGeB a b = true)
    (h2 : countGeB b c = true) : countGeB a c = true := by
  simp only [countGeB, decide_eq_true_eq] at *
  omega

theorem listCharLe_total (a b : List Char) :
    listCharLe a b = true ∨ listCharLe b a = true := by
  induction a generalizing b with
  | nil => left; simp [listCharLe]
  | cons x xs ih =>
    cases b with
    | nil => right; simp [listCharLe]
    | cons y ys =>
      simp only [listCharLe]
      rcases Nat.lt_trichotomy x.toNat y.toNat with h | h | h
      · left; simp [h]
      · have hn : ¬ x.toNat < y.toNat := by omega
        have hn2 : ¬ y.toNat < x.toNat := by omega
        simpa [hn, hn2] using ih ys
      · right; simp [h]

theorem listCharLe_trans (a b c : List Char) (h1 : listCharLe a b = true)
    (h2 : listCharLe b c = true) : listCharLe a c = true := by
  induction a generalizing b c with
  | nil => simp [listCharLe]
  | cons x xs ih =>
    cases b with
    | nil => simp [listCharLe] at h1
    | cons y ys =>
      cases c with
      | nil => simp [listCharLe] at h2
      | cons z zs =>
        simp only [listCharLe] at h1 h2 ⊢
        rcases Nat.lt_trichotomy x.toNat y.toNat with hxy | hxy | hxy
        · rcases Nat.lt_trichotomy y.toNat z.toNat with hyz | hyz | hyz
          · simp [show x.toNat < z.toNat by omega]
          · simp [show x.toNat < z.toNat by omega]
          · simp [show ¬ y.toNat < z.toNat by omega, hyz] at h2
        · rcases Nat.lt_trichotomy y.toNat z.toNat with hyz | hyz | hyz
          · simp [show x.toNat < z.toNat by omega]
          · have e1 : ¬ x.toNat < y.toNat := by omega
            have e2 : ¬ y.toNat < x.toNat := by omega
            have e3 : ¬ y.toNat < z.toNat := by omega
            have e4 : ¬ z.toNat < y.toNat := by omega
            simp only [e1, e2, if_false, if_true] at h1
            simp only [e3, e4, if_false, if_true] at h2
            have e5 : ¬ x.toNat < z.toNat := by omega
            have e6 : ¬ z.toNat < x.toNat := by omega
            simp only [e5, e6, if_false, if_true]
            exact ih ys zs (by simpa using h1) (by simpa using h2)
          · simp [show ¬ y.toNat < z.toNat by omega, hyz] at h2
        · simp [show ¬ x.toNat < y.toNat by omega, hxy] at h1

theorem listCharLt_of_le_of_ne (a b : List Char) (h : listCharLe a b = true)
    (hne : a ≠ b) : listCharLt a b = true := by
  induction a generalizing b with
  | nil =>
    cases b with
    | nil => exact absurd rfl hne
    | cons y ys => simp [listCharLt]
  | cons x xs ih =>
    cases b with
    | nil => simp [listCharLe] at h
    | cons y ys =>
      simp only [listCharLe] at h
      simp only [listCharLt]
      rcases Nat.lt_trichotomy x.toNat y.toNat with hxy | hxy | hxy
      · simp [hxy]
      · have e1 : ¬ x.toNat < y.toNat := by omega
        have e2 : ¬ y.toNat < x.toNat := by omega
        simp only [e1, e2, if_false, if_true] at h ⊢
        have hx : x = y := Char.eq_of_val_eq (UInt32.toNat.inj hxy)
        subst hx
        have hne2 : xs ≠ ys := by
          intro hc
          exact hne (by rw [hc])
        exact ih ys (by simpa using h) hne2
      · simp [show ¬ x.toNat < y.toNat by omega, hxy] at h

theorem strLeB_total (a b : String) : strLeB a b = true ∨ strLeB b a = true :=
  listCharLe_total a.data b.data

theorem strLeB_trans (a b c : String) (h1 : strLeB a b = true)
    (h2 : strLeB b c = true) : strLeB a c = true :=
  listCharLe_trans a.data b.data c.data h1 h2

theorem strLtB_of_le_of_ne (a b : String) (h : strLeB a b = true)
    (hne : a ≠ b) : strLtB a b = true := by
  apply listCharLt_of_le_of_ne a.data b.data h
  intro hc
  apply hne
  cases a with
  | mk da =>
    cases b with
    | mk db => exact congrArg String.mk hc

theorem incr_sum [DecidableEq κ] (l : List (κ × Nat)) (k : κ) :
    ((incr l k).map (fun p => p.2)).sum = ((l.map (fun p => p.2)).sum) + 1 := by
  induction l with
  | nil => simp [incr]
  | cons p rest ih =>
    obtain ⟨k0, c⟩ := p
    simp only [incr]
    split
    · simp; omega
    · simp [ih]; omega

theorem incr_keys [DecidableEq κ] (l : List (κ × Nat)) (k : κ) :
    (incr l k).map (fun p => p.1) =
      if k ∈ l.map (fun p => p.1) then l.map (fun p => p.1)
      else l.map (fun p => p.1) ++ [k] := by
  induction l with
  | nil => simp [incr]
  | cons p rest ih =>
    obtain ⟨k0, c⟩ := p
    simp only [incr]
    by_cases hk : k0 = k
    · subst hk
      simp
    · have hne : k ≠ k0 := fun hc => hk hc.symm
      simp only [if_neg hk, List.map_cons, ih, List.mem_cons]
      by_cases hmem : k ∈ rest.map (fun p => p.1)
      · simp [hmem, hne]
      · simp [hmem, hne]

theorem incr_keys_nodup [DecidableEq κ] (l : List (κ × Nat)) (k : κ)
    (h : (l.map (fun p => p.1)).Nodup) : ((incr l k).map (fun p => p.1)).Nodup := by
  rw [incr_keys]
  split
  · exact h
  · next hk =>
    simpa [List.nodup_append, hk] using h

theorem countRows_ok_sum (header : List String) (cols : List String)
    (normalize lowercase : Bool) (rows : List (List String))
    (acc res : List (List (Option String) × Nat))
    (h : countRows header cols normalize lowercase rows acc = .ok res) :
    (res.map (fun p => p.2)).sum = (acc.map (fun p => p.2)).sum + rows.length := by
  induction rows generalizing acc with
  | nil =>
    simp only [countRows] at h
    cases h
    simp
  | cons r rs ih =>
    simp only [countRows] at h
    cases hk : buildKey header cols normalize lowercase r with
    | error e => rw [hk] at h; cases h
    | ok k =>
      rw [hk] at h
      have := ih (incr acc k) h
      rw [this, incr_sum]
      simp
      omega

theorem countRows_keys_nodup (header : List String) (cols : List String)
    (normalize lowercase : Bool) (rows : List (List String))
    (acc res : List (List (Option String) × Nat))
    (hacc : (acc.map (fun p => p.1)).Nodup)
    (h : countRows header cols normalize lowercase rows acc = .ok res) :
    (res.map (fun p => p.1)).Nodup := by
  induction rows generalizing acc with
  | nil =>
    simp only [countRows] at h
    cases h
    exact hacc
  | cons r rs ih =>
    simp only [countRows] at h
    cases hk : buildKey header cols normalize lowercase r with
    | error e => rw [hk] at h; cases h
    | ok k =>
      rw [hk] at h
      exact ih (incr acc k) (incr_keys_nodup acc k hacc) h

theorem countRows_rows_ok (header : List String) (cols : List String)
    (normalize lowercase : Bool) (rows : List (List String))
    (acc res : List (List (Option String) × Nat))
    (h : countRows header cols normalize lowercase rows acc = .ok res) :
    ∀ r ∈ rows, ∃ k, buildKey header cols normalize lowercase r = .ok k := by
  induction rows generalizing acc with
  | nil => intro r hr; cases hr
  | cons r0 rs ih =>
    intro r hr
    simp only [countRows] at h
    cases hk : buildKey header cols normalize lowercase r0 with
    | error e => rw [hk] at h; cases h
    | ok k =>
      rw [hk] at h
      rcases List.mem_cons.mp hr with rfl | hr
      · exact ⟨k, hk⟩
      · exact ih (incr acc k) h r hr

theorem buildKey_length (header : List String) (cols : List String)
    (normalize lowercase : Bool) (r : List String)
    (k : List (Option String))
    (h : buildKey header cols normalize lowercase r = .ok k) :
    k.length = cols.length := by
  induction cols generalizing k with
  | nil =>
    simp only [buildKey] at h
    cases h
    rfl
  | cons c cs ih =>
    simp only [buildKey] at h
    cases h1 : countTransform normalize lowercase (dictCell header r c) with
    | error e => rw [h1] at h; cases h
    | ok v =>
      rw [h1] at h
      cases h2 : buildKey header cs normalize lowercase r with
      | error e => rw [h2] at h; cases h
      | ok vs =>
        rw [h2] at h
        cases h
        simp [ih vs h2]

theorem countRows_keys_length (header : List String) (cols : List String)
    (normalize lowercase : Bool) (rows : List (List String))
    (acc res : List (List (Option String) × Nat))
    (hacc : ∀ p ∈ acc, p.1.length = cols.length)
    (h : countRows header cols normalize lowercase rows acc = .ok res) :
    ∀ p ∈ res, p.1.length = cols.length := by
  induction rows generalizing acc with
  | nil =>
    simp only [countRows] at h
    cases h
    exact hacc
  | cons r rs ih =>
    simp only [countRows] at h
    cases hk : buildKey header cols normalize lowercase r with
    | error e => rw [hk] at h; cases h
    | ok k =>
      rw [hk] at h
      refine ih (incr acc k) ?_ h
      intro p hp
      clear h ih
      induction acc with
      | nil =>
        simp only [incr, List.mem_singleton] at hp
        rw [hp]
        exact buildKey_length header cols normalize lowercase r k hk
      | cons q qs ihq =>
        obtain ⟨k0, c0⟩ := q
        simp only [incr] at hp
        split at hp
        · rcases List.mem_cons.mp hp with rfl | hp
          · exact hacc (k0, c0) (List.mem_cons_self _ _)
          · exact hacc p (List.mem_cons_of_mem _ hp)
        · rcases List.mem_cons.mp hp with rfl | hp
          · exact hacc (k0, c0) (List.mem_cons_self _ _)
          · exact ihq (fun q hq => hacc q (List.mem_cons_of_mem _ hq)) hp

theorem countTransform_lowercase (normalize : Bool) (cell : Option String) :
    countTransform normalize true cell = countTransform true true cell := by
  cases normalize <;> rfl

theorem buildKey_lowercase (header : List String) (cols : List String)
    (normalize : Bool) (r : List String) :
    buildKey header cols normalize true r = buildKey header cols true true r := by
  induction cols with
  | nil => rfl
  | cons c cs ih =>
    simp only [buildKey, countTransform_lowercase, ih]

theorem countRows_lowercase (header : List String) (cols : List String)
    (normalize : Bool) (rows : List (List String))
    (acc : List (List (Option String) × Nat)) :
    countRows header cols normalize true rows acc = countRows header cols true true rows acc := by
  induction rows generalizing acc with
  | nil => rfl
  | cons r rs ih =>
    simp only [countRows, buildKey_lowercase]
    cases buildKey header cols true true r with
    | error e => rfl
    | ok k => exact ih (incr acc k)

theorem checkCols_append (header : List String) (l1 l2 : List (Option String))
    (h : ∀ c ∈ l1, colPass header c = true) :
    checkCols header (l1 ++ l2) = checkCols header l2 := by
  induction l1 with
  | nil => rfl
  | cons c cs ih =>
    have hc := h c (List.mem_cons_self c cs)
    cases c with
    | none => simp [colPass] at hc
    | some s =>
      simp only [colPass, Bool.and_eq_true, bne_iff_ne, ne_eq, decide_eq_true_eq] at hc
      obtain ⟨hs1, hs2⟩ := hc
      simp only [List.cons_append, checkCols, if_neg hs1, if_pos hs2]
      exact ih (fun c hc => h c (List.mem_cons_of_mem _ hc))

theorem uniqAdd_mem (acc : List String) (v w : String) :
    w ∈ uniqAdd acc v ↔ w ∈ acc ∨ w = v := by
  simp only [uniqAdd]
  split
  · next hv =>
    constructor
    · exact fun h => Or.inl h
    · rintro (h | rfl)
      · exact h
      · exact hv
  · simp

theorem uniqAdd_nodup (acc : List String) (v : String) (h : acc.Nodup) :
    (uniqAdd acc v).Nodup := by
  simp only [uniqAdd]
  split
  · exact h
  · next hv => simpa [List.nodup_append, hv] using h

theorem uniqScan_nodup (header : List String) (col : String)
    (normalize lowercase : Bool) (rows : List (List String))
    (acc : List String) (h : acc.Nodup) :
    (uniqScan header col normalize lowercase rows acc).Nodup := by
  induction rows generalizing acc with
  | nil => exact h
  | cons r rs ih =>
    cases hc : dictCell header r col with
    | none =>
      simp only [uniqScan, hc]
      exact ih acc h
    | some v =>
      simp only [uniqScan, hc]
      by_cases hv : v = ""
      · rw [if_pos hv]
        exact ih acc h
      · rw [if_neg hv]
        exact ih _ (uniqAdd_nodup acc _ h)

theorem uniqScan_origin (header : List String) (col : String)
    (normalize lowercase : Bool) (rows : List (List String))
    (acc : List String) (v : String)
    (h : v ∈ uniqScan header col normalize lowercase rows acc) :
    v ∈ acc ∨ ∃ r ∈ rows, ∃ raw, dictCell header r col = some raw ∧
      raw ≠ "" ∧ xform normalize lowercase raw = v := by
  induction rows generalizing acc with
  | nil => exact Or.inl h
  | cons r rs ih =>
    cases hc : dictCell header r col with
    | none =>
      simp only [uniqScan, hc] at h
      rcases ih acc h with h1 | ⟨r0, hr0, raw, h2⟩
      · exact Or.inl h1
      · exact Or.inr ⟨r0, List.mem_cons_of_mem _ hr0, raw, h2⟩
    | some w =>
      simp only [uniqScan, hc] at h
      by_cases hw : w = ""
      · rw [if_pos hw] at h
        rcases ih acc h with h1 | ⟨r0, hr0, raw, h2⟩
        · exact Or.inl h1
        · exact Or.inr ⟨r0, List.mem_cons_of_mem _ hr0, raw, h2⟩
      · rw [if_neg hw] at h
        rcases ih _ h with h1 | ⟨r0, hr0, raw, h2⟩
        · rcases (uniqAdd_mem acc _ v).mp h1 with h3 | h3
          · exact Or.inl h3
          · exact Or.inr ⟨r, List.mem_cons_self _ _, w, hc, hw, h3.symm⟩
        · exact Or.inr ⟨r0, List.mem_cons_of_mem _ hr0, raw, h2⟩

theorem parseMDY_midnight (s : String) (dt : DateTimeVal)
    (h : parseMDY s = some dt) : dt.hh = 0 ∧ dt.mm = 0 := by
  simp only [parseMDY] at h
  repeat' split at h
  all_goals cases h
  all_goals exact ⟨rfl, rfl⟩

theorem dtLeP_trans (a b c : DateTimeVal) (h1 : dtLeP a b) (h2 : dtLeP b c) :
    dtLeP a c := by
  obtain ⟨ay, am, ad, ahh, amm⟩ := a
  obtain ⟨by_, bm, bd, bhh, bmm⟩ := b
  obtain ⟨cy, cm, cd, chh, cmm⟩ := c
  simp only [dtLeP] at h1 h2 ⊢
  omega

theorem dtLe_cmp_midnight (s e dt : DateTimeVal)
    (hs1 : s.hh = 0) (hs2 : s.mm = 0) (he1 : e.hh = 0) (he2 : e.mm = 0) :
    (dtLe s dt && dtLe dt e) =
      (dateLe s dt && (dateLt dt e || decide (dt = e))) := by
  obtain ⟨sy, sm, sd, shh, smm⟩ := s
  obtain ⟨ey, em, ed, ehh, emm⟩ := e
  obtain ⟨dy, dm, dd, dhh, dmm⟩ := dt
  simp only at hs1 hs2 he1 he2
  subst hs1 hs2 he1 he2
  simp only [dtLe, dateLe, dateLt, dtLeP, dateLeP, dateLtP, DateTimeVal.mk.injEq,
    ← Bool.decide_and, ← Bool.decide_or, decide_eq_decide]
  omega

theorem dateRows_append (header : List String) (dateCol : String)
    (targetCols : List String) (s e : DateTimeVal)
    (xs ys : List (List String)) :
    dateRows header dateCol targetCols s e (xs ++ ys) =
      match dateRows header dateCol targetCols s e xs with
      | .error er => .error er
      | .ok l =>
        match dateRows header dateCol targetCols s e ys with
        | .error er => .error er
        | .ok l2 => .ok (l ++ l2) := by
  induction xs with
  | nil =>
    simp only [List.nil_append, dateRows]
    cases dateRows header dateCol targetCols s e ys with
    | error er => rfl
    | ok l2 => rfl
  | cons r rs ih =>
    cases hc : dictCell header r dateCol with
    | none =>
      simp only [List.cons_append, dateRows, hc]
      exact ih
    | some v =>
      by_cases hv : v = ""
      · simp only [List.cons_append, dateRows, hc, if_pos hv]
        exact ih
      · cases hp : parseMDYHM v with
        | none => simp only [List.cons_append, dateRows, hc, if_neg hv, hp]
        | some dt =>
          by_cases hq : (dtLe s dt && dtLe dt e) = true
          · simp only [List.cons_append, dateRows, hc, if_neg hv, hp, if_pos hq,
              List.append_eq]
            rw [ih]
            cases dateRows header dateCol targetCols s e rs with
            | error er => rfl
            | ok l =>
              cases dateRows header dateCol targetCols s e ys with
              | error er => rfl
              | ok l2 => rfl
          · simp only [List.cons_append, dateRows, hc, if_neg hv, hp, if_neg hq]
            exact ih

theorem dateRows_eq_dateSpec (header : List String) (dateCol : String)
    (targetCols : List String) (s e : DateTimeVal)
    (hs1 : s.hh = 0) (hs2 : s.mm = 0) (he1 : e.hh = 0) (he2 : e.mm = 0)
    (rows : List (List String)) :
    dateRows header dateCol targetCols s e rows =
      dateRowsDateSpec header dateCol targetCols s e rows := by
  induction rows with
  | nil => rfl
  | cons r rs ih =>
    cases hc : dictCell header r dateCol with
    | none => simp only [dateRows, dateRowsDateSpec, hc, ih]
    | some v =>
      by_cases hv : v = ""
      · simp only [dateRows, dateRowsDateSpec, hc, if_pos hv, ih]
      · cases hp : parseMDYHM v with
        | none => simp only [dateRows, dateRowsDateSpec, hc, if_neg hv, hp]
        | some dt =>
          simp only [dateRows, dateRowsDateSpec, hc, if_neg hv, hp,
            dtLe_cmp_midnight s e dt hs1 hs2 he1 he2, ih]

theorem dateRows_inverted (header : List String) (dateCol : String)
    (targetCols : List String) (s e : DateTimeVal)
    (hse : dtLe s e = false) (rows : List (List String))
    (hrows : ∀ r ∈ rows, rowDateOk header dateCol r = true) :
    dateRows header dateCol targetCols s e rows = .ok [] := by
  induction rows with
  | nil => rfl
  | cons r rs ih =>
    have hr := hrows r (List.mem_cons_self r rs)
    have hrs := fun r hr => hrows r (List.mem_cons_of_mem _ hr)
    cases hc : dictCell header r dateCol with
    | none => simp only [dateRows, hc]; exact ih hrs
    | some v =>
      by_cases hv : v = ""
      · simp only [dateRows, hc, if_pos hv]; exact ih hrs
      · cases hp : parseMDYHM v with
        | none =>
          exfalso
          simp only [rowDateOk, hc, hp] at hr
          simp [hv] at hr
        | some dt =>
          have hq : (dtLe s dt && dtLe dt e) = false := by
            by_contra hcon
            rw [Bool.not_eq_false, Bool.and_eq_true] at hcon
            obtain ⟨q1, q2⟩ := hcon
            have : dtLeP s e := dtLeP_trans s dt e
              (of_decide_eq_true q1) (of_decide_eq_true q2)
            rw [show dtLe s e = decide (dtLeP s e) from rfl,
              decide_eq_true this] at hse
            cases hse
          simp only [dateRows, hc, if_neg hv, hp, hq]
          simp only [Bool.false_eq_true, if_false]
          exact ih hrs

theorem dictInsert_not_mem [DecidableEq κ] (l : List (κ × β)) (k : κ) (v : β)
    (h : k ∉ l.map (fun p => p.1)) : dictInsert l k v = l ++ [(k, v)] := by
  induction l with
  | nil => rfl
  | cons p rest ih =>
    obtain ⟨k0, v0⟩ := p
    simp only [List.map_cons, List.mem_cons] at h
    push_neg at h
    obtain ⟨h1, h2⟩ := h
    have hne : ¬ (k0 = k) := fun hc => h1 hc.symm
    simp only [dictInsert, if_neg hne, List.cons_append]
    rw [ih h2]

theorem foldl_dictInsert [DecidableEq κ] (l acc : List (κ × β))
    (hl : (l.map (fun p => p.1)).Nodup)
    (hdisj : ∀ k ∈ l.map (fun p => p.1), k ∉ acc.map (fun p => p.1)) :
    l.foldl (fun a kv => dictInsert a kv.1 kv.2) acc = acc ++ l := by
  induction l generalizing acc with
  | nil => simp
  | cons p rest ih =>
    obtain ⟨k0, v0⟩ := p
    simp only [List.map_cons, List.nodup_cons] at hl
    simp only [List.foldl_cons]
    rw [dictInsert_not_mem acc k0 v0 (hdisj k0 (by simp))]
    have hdisj2 : ∀ kk ∈ rest.map (fun p => p.1),
        kk ∉ (acc ++ [(k0, v0)]).map (fun p => p.1) := by
      intro kk hkk hin
      rw [List.map_append] at hin
      rcases List.mem_append.mp hin with hin | hin
      · refine hdisj kk ?_ hin
        simp only [List.map_cons, List.mem_cons]
        exact Or.inr hkk
      · simp only [List.map_cons, List.map_nil, List.mem_singleton] at hin
        rw [hin] at hkk
        exact hl.1 hkk
    rw [ih (acc ++ [(k0, v0)]) hl.2 hdisj2]
    simp

theorem dictOfPairs_eq_self [DecidableEq κ] (l : List (κ × β))
    (hl : (l.map (fun p => p.1)).Nodup) : dictOfPairs l = l := by
  simp only [dictOfPairs]
  rw [foldl_dictInsert l [] hl (by simp)]
  simp

theorem pairwise_countGeB_map (cd : List (List (Option String) × Nat))
    (h : cd.Pairwise (fun a b => countGeB a b = true)) :
    (cd.map (fun kc => (kc.1.headD none, kc.2))).Pairwise
      (fun a b => countGeB a b = true) := by
  rw [List.pairwise_map]
  refine h.imp ?_
  intro a b hab
  simpa [countGeB] using hab

theorem count_by_columns_ok_elim (src : CsvSource) (cols : List String)
    (normalize lowercase : Bool) (res : List (List (Option String) × Nat))
    (h : count_by_columns src cols normalize lowercase = .ok res) :
    ∃ cnt, countRows src.data.header cols normalize lowercase src.data.rows [] = .ok cnt ∧
      res = sortBy countGeB cnt := by
  simp only [count_by_columns] at h
  cases hv : validate_csv_and_columns src (cols.map some) with
  | error e => rw [hv] at h; cases h
  | ok u =>
    rw [hv] at h
    cases hcnt : countRows src.data.header cols normalize lowercase src.data.rows [] with
    | error e => rw [hcnt] at h; cases h
    | ok cnt =>
      rw [hcnt] at h
      cases h
      exact ⟨cnt, rfl, rfl⟩

theorem count_ok_sum (src : CsvSource) (cols : List String)
    (normalize lowercase : Bool) (res : List (List (Option String) × Nat))
    (h : count_by_columns src cols normalize lowercase = .ok res) :
    (res.map (fun p => p.2)).sum = src.data.rows.length := by
  obtain ⟨cnt, hcnt, hres⟩ := count_by_columns_ok_elim src cols normalize lowercase res h
  have hperm := (sortBy_perm countGeB cnt).map (fun p => p.2)
  rw [hres, hperm.sum_eq, countRows_ok_sum _ _ _ _ _ _ _ hcnt]
  simp

theorem count_ok_pairwise (src : CsvSource) (cols : List String)
    (normalize lowercase : Bool) (res : List (List (Option String) × Nat))
    (h : count_by_columns src cols normalize lowercase = .ok res) :
    res.Pairwise (fun a b => countGeB a b = true) := by
  obtain ⟨cnt, _, hres⟩ := count_by_columns_ok_elim src cols normalize lowercase res h
  rw [hres]
  exact sortBy_pairwise countGeB countGeB_total countGeB_trans cnt

theorem count_ok_keys_nodup (src : CsvSource) (cols : List String)
    (normalize lowercase : Bool) (res : List (List (Option String) × Nat))
    (h : count_by_columns src cols normalize lowercase = .ok res) :
    (res.map (fun p => p.1)).Nodup := by
  obtain ⟨cnt, hcnt, hres⟩ := count_by_columns_ok_elim src cols normalize lowercase res h
  have hnd := countRows_keys_nodup _ _ _ _ _ _ _ (by simp) hcnt
  have hperm := (sortBy_perm countGeB cnt).map (fun p => p.1)
  rw [hres]
  exact hperm.nodup_iff.mpr hnd

theorem count_ok_keys_length (src : CsvSource) (cols : List String)
    (normalize lowercase : Bool) (res : List (List (Option String) × Nat))
    (h : count_by_columns src cols normalize lowercase = .ok res) :
    ∀ p ∈ res, p.1.length = cols.length := by
  obtain ⟨cnt, hcnt, hres⟩ := count_by_columns_ok_elim src cols normalize lowercase res h
  have hlen := countRows_keys_length _ _ _ _ _ _ _ (by simp) hcnt
  intro p hp
  rw [hres] at hp
  exact hlen p ((sortBy_perm countGeB cnt).mem_iff.mp hp)

theorem exceptOk_ok (x : Except ε α) (h : exceptOk x = true) : ∃ u, x = .ok u := by
  cases x with
  | ok u => exact ⟨u, rfl⟩
  | error e => simp [exceptOk] at h

/-- Claim C1, counterexample: with window `12/25/2016 .. 12/31/2016`, the
row dated `12/31/2016 23:59` has date-only component exactly the end
date (parsed values shown), yet `values_in_date_range` excludes it —
the code compares the full timestamp against the end date's midnight, so
a row on the end date with nonzero time-of-day does not qualify. -/
theorem C1_counterexample :
    parseMDYHM "12/31/2016 23:59" = some ⟨2016, 12, 31, 23, 59⟩ ∧
    parseMDY "12/31/2016" = some ⟨2016, 12, 31, 0, 0⟩ ∧
    values_in_date_range ⟨"f.csv", true, ⟨["D"], [["12/31/2016 23:59"]]⟩⟩
      "D" "12/25/2016" "12/31/2016" [] = .ok [] := by
  refine ⟨by decide, by decide, by decide⟩

/-- Claim C1 (amended): a parseable row qualifies if and only if its full
parsed timestamp lies between the two parsed bounds taken as midnight
instants — equivalently, its date-only component is at least `startDate`
(so the start boundary is date-granular) and either strictly before
`endDate` or exactly the `endDate` midnight instant; a row whose date
component equals `endDate` with nonzero time-of-day is excluded.
Qualifying rows appear in output in source row order. Stated as:
the code equals `values_in_date_range_dateSpec`, the pipeline with
exactly that calendar-date qualification test. -/
theorem C1_amended (src : CsvSource) (dateCol startS endS : String)
    (tcs : List String) :
    values_in_date_range src dateCol startS endS tcs =
      values_in_date_range_dateSpec src dateCol startS endS tcs := by
  simp only [values_in_date_range, values_in_date_range_dateSpec]
  cases validate_csv_and_columns src (some dateCol :: tcs.map some) with
  | error e => rfl
  | ok u =>
    cases hs : parseMDY startS with
    | none => rfl
    | some s =>
      cases he : parseMDY endS with
      | none => rfl
      | some e =>
        obtain ⟨hs1, hs2⟩ := parseMDY_midnight _ _ hs
        obtain ⟨he1, he2⟩ := parseMDY_midnight _ _ he
        exact dateRows_eq_dateSpec _ _ _ _ _ hs1 hs2 he1 he2 _

/-- Claim C2, counterexample: in `count_by_columns` with
`normalize=false, lowercase=true` the raw value `"A B"` is grouped as
`"ab"` — its space was removed although `normalize` is false — not as
the claimed `"a b"`. The Python conditional expression right-associates,
so the `lowercase` branch strips spaces unconditionally. -/
theorem C2_counterexample :
    count_by_columns ⟨"f.csv", true, ⟨["A"], [["A B"]]⟩⟩ ["A"] false true =
      .ok [([some "ab"], 1)] ∧
    count_by_columns ⟨"f.csv", true, ⟨["A"], [["A B"]]⟩⟩ ["A"] false true ≠
      .ok [([some "a b"], 1)] := by
  refine ⟨by decide, by decide⟩

/-- Claim C2 (amended): the flags are not independent in
`count_by_columns`: when `lowercase=true` the value is space-stripped
and case-folded regardless of `normalize` (the `normalize` flag is
ignored), so `normalize=false, lowercase=true` behaves exactly like
`normalize=true, lowercase=true`; the same carries over to
`top_n_values`. (`normalize=true, lowercase=false` still only strips,
and in `extract_unique_values` the flags are independent.) -/
theorem C2_amended (src : CsvSource) (cols : List String) (col : String)
    (n : Int) :
    count_by_columns src cols false true = count_by_columns src cols true true ∧
    top_n_values src col n false true = top_n_values src col n true true := by
  constructor
  · simp only [count_by_columns, countRows_lowercase]
  · simp only [top_n_values, count_by_columns, countRows_lowercase]

/-- Claim C10, counterexample: with the inverted window
`start = 1/2/2017 > end = 1/1/2017`, a source whose row has the
unparseable date value `"oops"` makes `values_in_date_range` raise the
`Invalid date format` error instead of returning the empty sequence:
row dates are still parsed (and can abort) before the window test. -/
theorem C10_counterexample :
    values_in_date_range ⟨"f.csv", true, ⟨["D"], [["oops"]]⟩⟩
      "D" "1/2/2017" "1/1/2017" [] = .error (.invalidDateFormat "D" "oops") ∧
    values_in_date_range ⟨"f.csv", true, ⟨["D"], [["oops"]]⟩⟩
      "D" "1/2/2017" "1/1/2017" [] ≠ .ok [] := by
  refine ⟨by decide, by decide⟩

/-- Claim C10 (amended): for an inverted window (start strictly later
than end) the call returns the empty sequence provided validation
passes and every row's date cell is empty, missing, or parseable; a
non-empty unparseable date value still aborts the call with an error
even though no row could qualify. -/
theorem C10_amended (src : CsvSource) (dateCol startS endS : String)
    (tcs : List String) (s e : DateTimeVal)
    (hval : exceptOk (validate_csv_and_columns src
      (some dateCol :: tcs.map some)) = true)
    (hs : parseMDY startS = some s) (he : parseMDY endS = some e)
    (hinv : dtLe s e = false)
    (hrows : ∀ r ∈ src.data.rows, rowDateOk src.data.header dateCol r = true) :
    values_in_date_range src dateCol startS endS tcs = .ok [] := by
  obtain ⟨u, hu⟩ := exceptOk_ok _ hval
  simp only [values_in_date_range, hu, hs, he]
  exact dateRows_inverted _ _ _ _ _ hinv _ hrows

/-- Witness for C10 (amended): a concrete inverted window on a source
with one parseable row returns the empty sequence. -/
theorem C10_witness :
    values_in_date_range ⟨"f.csv", true, ⟨["D"], [["1/1/2017 5:00"]]⟩⟩
      "D" "1/2/2017" "1/1/2017" [] = .ok [] :=
  C10_amended ⟨"f.csv", true, ⟨["D"], [["1/1/2017 5:00"]]⟩⟩ "D" "1/2/2017"
    "1/1/2017" [] ⟨2017, 1, 2, 0, 0⟩ ⟨2017, 1, 1, 0, 0⟩
    (by decide) (by decide) (by decide) (by decide) (by decide)

/-- Claim C3: (skip part) a row whose date cell is missing or the empty
string contributes nothing — the call equals the call on the source with
that row removed; (abort part) a row whose date value is non-empty but
unparseable aborts the whole call with `Invalid date format` naming the
column and the raw value, regardless of any rows after it (no partial
result), provided validation passes, the bounds parse, and the earlier
rows processed without error. -/
theorem C3_holds (p : String) (rd : Bool) (header : List String)
    (dateCol startS endS : String) (tcs : List String)
    (r0 : List String) (r1 r2 : List (List String)) :
    ((dictCell header r0 dateCol = none ∨ dictCell header r0 dateCol = some "") →
      values_in_date_range ⟨p, rd, ⟨header, r1 ++ r0 :: r2⟩⟩ dateCol startS endS tcs =
        values_in_date_range ⟨p, rd, ⟨header, r1 ++ r2⟩⟩ dateCol startS endS tcs) ∧
    (∀ v s e l, dictCell header r0 dateCol = some v → v ≠ "" →
      parseMDYHM v = none →
      parseMDY startS = some s → parseMDY endS = some e →
      dateRows header dateCol tcs s e r1 = .ok l →
      exceptOk (validate_csv_and_columns ⟨p, rd, ⟨header, r1 ++ r0 :: r2⟩⟩
        (some dateCol :: tcs.map some)) = true →
      values_in_date_range ⟨p, rd, ⟨header, r1 ++ r0 :: r2⟩⟩ dateCol startS endS tcs =
        .error (.invalidDateFormat dateCol v)) := by
  constructor
  · intro hskip
    simp only [values_in_date_range]
    have hveq : validate_csv_and_columns ⟨p, rd, ⟨header, r1 ++ r0 :: r2⟩⟩
        (some dateCol :: tcs.map some) =
        validate_csv_and_columns ⟨p, rd, ⟨header, r1 ++ r2⟩⟩
        (some dateCol :: tcs.map some) := rfl
    rw [hveq]
    cases validate_csv_and_columns ⟨p, rd, ⟨header, r1 ++ r2⟩⟩
        (some dateCol :: tcs.map some) with
    | error e => rfl
    | ok u =>
      cases parseMDY startS with
      | none => rfl
      | some s =>
        cases parseMDY endS with
        | none => rfl
        | some e =>
          show dateRows header dateCol tcs s e (r1 ++ r0 :: r2) =
            dateRows header dateCol tcs s e (r1 ++ r2)
          rw [dateRows_append, dateRows_append]
          have hr0 : dateRows header dateCol tcs s e (r0 :: r2) =
              dateRows header dateCol tcs s e r2 := by
            rcases hskip with hc | hc
            · simp only [dateRows, hc]
            · simp [dateRows, hc]
          rw [hr0]
  · intro v s e l hc hv hp hs he hr1 hval
    obtain ⟨u, hu⟩ := exceptOk_ok _ hval
    simp only [values_in_date_range, hu, hs, he]
    rw [dateRows_append, hr1]
    have hr0 : dateRows header dateCol tcs s e (r0 :: r2) =
        .error (.invalidDateFormat dateCol v) := by
      simp only [dateRows, hc, if_neg hv, hp]
    rw [hr0]

/-- Witness for C3: on a concrete source, a row with an empty date cell
is skipped (call equals the call without it), and a row with the
unparseable date value `"bad"` after a good row aborts the whole call
with the error naming column and value. -/
theorem C3_witness :
    (values_in_date_range ⟨"f.csv", true, ⟨["D"], [["1/1/2017 5:00"], [""], ["1/2/2017 6:00"]]⟩⟩
        "D" "1/1/2017" "1/5/2017" [] =
      values_in_date_range ⟨"f.csv", true, ⟨["D"], [["1/1/2017 5:00"], ["1/2/2017 6:00"]]⟩⟩
        "D" "1/1/2017" "1/5/2017" []) ∧
    values_in_date_range ⟨"f.csv", true, ⟨["D"], [["1/1/2017 5:00"], ["bad"], ["1/2/2017 6:00"]]⟩⟩
        "D" "1/1/2017" "1/5/2017" [] = .error (.invalidDateFormat "D" "bad") :=
  ⟨(C3_holds "f.csv" true ["D"] "D" "1/1/2017" "1/5/2017" [] [""]
      [["1/1/2017 5:00"]] [["1/2/2017 6:00"]]).1 (by decide),
   (C3_holds "f.csv" true ["D"] "D" "1/1/2017" "1/5/2017" [] ["bad"]
      [["1/1/2017 5:00"]] [["1/2/2017 6:00"]]).2 "bad" ⟨2017, 1, 1, 0, 0⟩
      ⟨2017, 1, 5, 0, 0⟩ [[("D", some "1/1/2017 5:00")]]
      (by decide) (by decide) (by decide) (by decide) (by decide) (by decide)
      (by decide)⟩

/-- Claim C4, counterexample: a row shorter than the header has a
missing (`None`) cell, not an empty-string cell. With both flags off the
missing cell participates in the Aggregate Key as `None` — not as the
claimed empty string — and with `normalize=true` (the default) the call
does not count the row at all: it aborts with an `AttributeError`
(`None` has no `replace`). -/
theorem C4_counterexample :
    count_by_columns ⟨"f.csv", true, ⟨["A", "B"], [["x"]]⟩⟩ ["A", "B"] false false =
      .ok [([some "x", none], 1)] ∧
    ([some "x", none] : List (Option String)) ≠ [some "x", some ""] ∧
    count_by_columns ⟨"f.csv", true, ⟨["A", "B"], [["x"]]⟩⟩ ["A", "B"] true false =
      .error .noneHasNoReplace := by
  refine ⟨by decide, by decide, by decide⟩

/-- Claim C4 (amended): whenever `count_by_columns` returns, its counts
sum to the total number of data rows — every row contributed exactly one
increment, and every row yielded a key (none skipped); present-but-empty
cells participate in the key as the empty string, but a row with a
missing (absent) cell in a grouped column aborts the call (with
`AttributeError` under either flag, or participates as `None` with both
flags off) rather than participating as an empty string. -/
theorem C4_amended (src : CsvSource) (cols : List String)
    (normalize lowercase : Bool) (res : List (List (Option String) × Nat))
    (h : count_by_columns src cols normalize lowercase = .ok res) :
    (res.map (fun p => p.2)).sum = src.data.rows.length ∧
    ∀ r ∈ src.data.rows, ∃ k,
      buildKey src.data.header cols normalize lowercase r = .ok k := by
  constructor
  · exact count_ok_sum src cols normalize lowercase res h
  · obtain ⟨cnt, hcnt, _⟩ :=
      count_by_columns_ok_elim src cols normalize lowercase res h
    exact countRows_rows_ok _ _ _ _ _ _ _ hcnt

/-- Witness for C4 (amended): a concrete two-row source (one row with an
empty cell, kept and keyed with the empty string) whose counts sum to
the row count 2. -/
theorem C4_witness :
    count_by_columns ⟨"f.csv", true, ⟨["A", "B"], [["x", ""], ["y", "z"]]⟩⟩
      ["A", "B"] true false =
      .ok [([some "x", some ""], 1), ([some "y", some "z"], 1)] ∧
    (([([some "x", some ""], 1), ([some "y", some "z"], 1)]).map
      (fun p => p.2)).sum = 2 := by
  refine ⟨by decide, ?_⟩
  have := (C4_amended ⟨"f.csv", true, ⟨["A", "B"], [["x", ""], ["y", "z"]]⟩⟩
    ["A", "B"] true false [([some "x", some ""], 1), ([some "y", some "z"], 1)]
    (by decide)).1
  exact this

theorem length_one_eq_headD (l : List (Option String)) (h : l.length = 1) :
    l = [l.headD none] := by
  cases l with
  | nil => cases h
  | cons x xs =>
    cases xs with
    | nil => rfl
    | cons y ys => simp at h

/-- Claim C5: whenever `top_n_values` and the single-column
`count_by_columns` both return, the top-N list is exactly the
count-by-columns ranking with each singleton key collapsed to its bare
value, truncated to `n` entries — hence a prefix, by count, of the full
ranking with its first-encounter tie order; it is sorted by descending
count, its length never exceeds `max n 0`, `n ≤ 0` yields the empty
sequence, and `n` at least the number of distinct values yields the
whole ranking. -/
theorem C5_holds (src : CsvSource) (col : String) (n : Int)
    (normalize lowercase : Bool) (res : List (Option String × Nat))
    (full : List (List (Option String) × Nat))
    (htop : top_n_values src col n normalize lowercase = .ok res)
    (hfull : count_by_columns src [col] normalize lowercase = .ok full) :
    res = (full.map (fun kc => (kc.1.headD none, kc.2))).take n.toNat ∧
    res.Pairwise (fun a b => countGeB a b = true) ∧
    (res.length : Int) ≤ max n 0 ∧
    (n ≤ 0 → res = []) ∧
    ((full.length : Int) ≤ n →
      res = full.map (fun kc => (kc.1.headD none, kc.2))) := by
  have hnd := count_ok_keys_nodup src [col] normalize lowercase full hfull
  have hlen := count_ok_keys_length src [col] normalize lowercase full hfull
  have hpw := count_ok_pairwise src [col] normalize lowercase full hfull
  have hmapnd : (full.map (fun kc => kc.1.headD none)).Nodup := by
    have heq : full.map (fun kc => kc.1.headD none) =
        (full.map (fun p => p.1)).map (fun k => k.headD none) := by
      rw [List.map_map]
      rfl
    rw [heq]
    refine List.Nodup.map_on ?_ hnd
    intro x hx y hy hxy
    obtain ⟨px, hpx, rfl⟩ := List.mem_map.mp hx
    obtain ⟨py, hpy, rfl⟩ := List.mem_map.mp hy
    rw [length_one_eq_headD px.1 (hlen px hpx), hxy,
      ← length_one_eq_headD py.1 (hlen py hpy)]
  have hmapnd2 : ((full.map (fun kc => (kc.1.headD none, kc.2))).map
      (fun p => p.1)).Nodup := by
    rw [List.map_map]
    exact hmapnd
  have hpwmap := pairwise_countGeB_map full hpw
  simp only [top_n_values] at htop
  cases hv : validate_csv_and_columns src [some col] with
  | error e => rw [hv] at htop; cases htop
  | ok u =>
    rw [hv, hfull] at htop
    cases htop
    have hres : (sortBy countGeB (dictOfPairs
        (full.map (fun kc => (kc.1.headD none, kc.2))))).take n.toNat =
        (full.map (fun kc => (kc.1.headD none, kc.2))).take n.toNat := by
      rw [dictOfPairs_eq_self _ hmapnd2, sortBy_eq_self countGeB _ hpwmap]
    refine ⟨hres, ?_, ?_, ?_, ?_⟩
    · rw [hres]
      exact hpwmap.sublist (List.take_sublist _ _)
    · rw [hres]
      simp only [List.length_take, List.length_map]
      omega
    · intro hn
      rw [hres, Int.toNat_of_nonpos hn]
      rfl
    · intro hn
      rw [hres]
      apply List.take_of_length_le
      simp only [List.length_map]
      omega

/-- Witness for C5: a concrete three-row, two-value source with `n = 1`:
the top-1 list equals the collapsed full ranking truncated to one entry. -/
theorem C5_witness :
    top_n_values ⟨"f.csv", true, ⟨["B"], [["d"], ["b"], ["d"]]⟩⟩ "B" 1 true false =
      .ok [(some "d", 2)] ∧
    count_by_columns ⟨"f.csv", true, ⟨["B"], [["d"], ["b"], ["d"]]⟩⟩ ["B"] true false =
      .ok [([some "d"], 2), ([some "b"], 1)] ∧
    [(some "d", 2)] =
      (([([some "d"], 2), ([some "b"], 1)]).map
        (fun kc => (kc.1.headD none, kc.2))).take (1 : Int).toNat := by
  refine ⟨by decide, by decide, ?_⟩
  exact (C5_holds ⟨"f.csv", true, ⟨["B"], [["d"], ["b"], ["d"]]⟩⟩ "B" 1 true false
    [(some "d", 2)] [([some "d"], 2), ([some "b"], 1)] (by decide) (by decide)).1

/-- Claim C6, counterexample: with header `["A"]` and required columns
`["X", ""]` — an absent name before an empty name — the validator
reports the missing column `X`, not the empty-name failure, because the
two per-column checks are interleaved in list order rather than check
(d) running for every column before check (e). -/
theorem C6_counterexample :
    validate_csv_and_columns ⟨"data.csv", true, ⟨["A"], []⟩⟩ [some "X", some ""] =
      .error (.columnNotFound "X") ∧
    validate_csv_and_columns ⟨"data.csv", true, ⟨["A"], []⟩⟩ [some "X", some ""] ≠
      .error .emptyColumnName := by
  refine ⟨by decide, by decide⟩

/-- Claim C6 (amended): validation checks (a) extension, (b) openable,
(c) non-empty header in that order, and then walks the required columns
in list order, checking empty/null before presence for each single
column; the earliest failing column determines the reported failure.
Validation never reads a data row (replacing the rows changes nothing),
and an empty, null, or absent column name still yields its
SchemaError-kind failure before any data row is read. -/
theorem C6_amended (src : CsvSource) (l1 l2 : List (Option String))
    (c : Option String)
    (hext : hasCsvExt src.path = true) (hrd : src.readable = true)
    (hh : src.data.header ≠ [])
    (hok : ∀ x ∈ l1, colPass src.data.header x = true) :
    (∀ rows cols0, validate_csv_and_columns (withRows src rows) cols0 =
        validate_csv_and_columns src cols0) ∧
    ((c = none ∨ ∃ s, c = some s ∧ pyStrip s = "") →
      validate_csv_and_columns src (l1 ++ c :: l2) = .error .emptyColumnName) ∧
    (∀ s, c = some s → pyStrip s ≠ "" → s ∉ src.data.header →
      validate_csv_and_columns src (l1 ++ c :: l2) =
        .error (.columnNotFound s)) := by
  have hv : ∀ cols, validate_csv_and_columns src cols =
      checkCols src.data.header cols := by
    intro cols
    simp [validate_csv_and_columns, hext, hrd, hh]
  refine ⟨fun rows cols0 => rfl, ?_, ?_⟩
  · intro hc
    rw [hv, checkCols_append _ _ _ hok]
    rcases hc with rfl | ⟨s, rfl, hs⟩
    · rfl
    · simp [checkCols, hs]
  · intro s hceq hs hmem
    subst hceq
    rw [hv, checkCols_append _ _ _ hok]
    simp [checkCols, hs, hmem]

/-- Witness for C6 (amended): concretely, after the valid column `A`,
an empty name yields the empty-column failure, an absent name `Q`
yields the missing-column failure, and replacing the (empty) row list
with a non-empty one leaves the validator's answer unchanged. -/
theorem C6_witness :
    validate_csv_and_columns ⟨"d.csv", true, ⟨["A"], []⟩⟩ [some "A", some ""] =
      .error .emptyColumnName ∧
    validate_csv_and_columns (withRows ⟨"d.csv", true, ⟨["A"], []⟩⟩ [["zz"]])
        [some "A", some "Q"] =
      validate_csv_and_columns ⟨"d.csv", true, ⟨["A"], []⟩⟩ [some "A", some "Q"] ∧
    validate_csv_and_columns ⟨"d.csv", true, ⟨["A"], []⟩⟩ [some "A", some "Q"] =
      .error (.columnNotFound "Q") := by
  refine ⟨?_, ?_, ?_⟩
  · exact (C6_amended ⟨"d.csv", true, ⟨["A"], []⟩⟩ [some "A"] [] (some "")
      (by decide) (by decide) (by decide) (by decide)).2.1
      (Or.inr ⟨"", rfl, by decide⟩)
  · exact (C6_amended ⟨"d.csv", true, ⟨["A"], []⟩⟩ [some "A"] [] (some "Q")
      (by decide) (by decide) (by decide) (by decide)).1 [["zz"]]
      [some "A", some "Q"]
  · exact (C6_amended ⟨"d.csv", true, ⟨["A"], []⟩⟩ [some "A"] [] (some "Q")
      (by decide) (by decide) (by decide) (by decide)).2.2 "Q" rfl
      (by decide) (by decide)

theorem extract_ok_elim (src : CsvSource) (col : String)
    (normalize lowercase : Bool) (out : List String)
    (h : extract_unique_values src col normalize lowercase = .ok out) :
    out = sortBy strLeB
      (uniqScan src.data.header col normalize lowercase src.data.rows []) := by
  simp only [extract_unique_values] at h
  cases hv : validate_csv_and_columns src [some col] with
  | error e => rw [hv] at h; cases h
  | ok u =>
    rw [hv] at h
    cases h
    rfl

theorem hasOrigin_of_exists (src : CsvSource) (col : String)
    (normalize lowercase : Bool) (v : String)
    (h : ∃ r ∈ src.data.rows, ∃ raw, dictCell src.data.header r col = some raw ∧
      raw ≠ "" ∧ xform normalize lowercase raw = v) :
    hasOrigin src col normalize lowercase v = true := by
  obtain ⟨r, hr, raw, hcell, hraw, hxf⟩ := h
  simp only [hasOrigin, List.any_eq_true]
  refine ⟨r, hr, ?_⟩
  simp [hcell, hraw, hxf]

/-- Claim C7, counterexample: a row whose raw value is a single space is
non-empty, so it is not skipped; with `normalize=true` it is stripped to
the empty string, which then appears in the output of
`extract_unique_values` — the empty string can occur in the result. -/
theorem C7_counterexample :
    extract_unique_values ⟨"f.csv", true, ⟨["A"], [[" "]]⟩⟩ "A" true false =
      .ok [""] ∧
    ("" ∈ ([""] : List String)) := by
  refine ⟨by decide, by decide⟩

/-- Claim C7 (amended): the output of `extract_unique_values` is
strictly ascending under ordinal string comparison (hence
duplicate-free), and every output value originates from some row's
non-empty raw cell via the flag transform — missing or empty raw cells
are skipped before normalization; however, a non-empty whitespace-only
raw value normalizes to the empty string, so the empty string can
appear in the output. -/
theorem C7_amended (src : CsvSource) (col : String)
    (normalize lowercase : Bool) (out : List String)
    (h : extract_unique_values src col normalize lowercase = .ok out) :
    out.Pairwise (fun a b => strLtB a b = true) ∧
    ∀ v ∈ out, hasOrigin src col normalize lowercase v = true := by
  have hout := extract_ok_elim src col normalize lowercase out h
  have hscan_nd : (uniqScan src.data.header col normalize lowercase
      src.data.rows []).Nodup :=
    uniqScan_nodup _ _ _ _ _ [] (List.nodup_nil)
  have hperm := sortBy_perm strLeB
    (uniqScan src.data.header col normalize lowercase src.data.rows [])
  constructor
  · have hle : out.Pairwise (fun a b => strLeB a b = true) := by
      rw [hout]
      exact sortBy_pairwise strLeB strLeB_total strLeB_trans _
    have hnd : out.Nodup := by
      rw [hout]
      exact hperm.nodup_iff.mpr hscan_nd
    have hand := hle.and hnd
    refine hand.imp ?_
    intro a b hab
    exact strLtB_of_le_of_ne a b hab.1 hab.2
  · intro v hv
    rw [hout] at hv
    have hv2 := hperm.mem_iff.mp hv
    rcases uniqScan_origin _ _ _ _ _ _ _ hv2 with h1 | h2
    · cases h1
    · exact hasOrigin_of_exists src col normalize lowercase v h2

/-- Witness for C7 (amended): on a concrete source with values
`" "` and `"b"`, the output `["", "b"]` is strictly ascending and the
value `"b"` has an originating non-empty raw cell. -/
theorem C7_witness :
    extract_unique_values ⟨"f.csv", true, ⟨["A"], [[" "], ["b"]]⟩⟩ "A" true false =
      .ok ["", "b"] ∧
    List.Pairwise (fun a b => strLtB a b = true) ["", "b"] ∧
    hasOrigin ⟨"f.csv", true, ⟨["A"], [[" "], ["b"]]⟩⟩ "A" true false "b" = true := by
  refine ⟨by decide, ?_, ?_⟩
  · exact (C7_amended ⟨"f.csv", true, ⟨["A"], [[" "], ["b"]]⟩⟩ "A" true false
      ["", "b"] (by decide)).1
  · exact (C7_amended ⟨"f.csv", true, ⟨["A"], [[" "], ["b"]]⟩⟩ "A" true false
      ["", "b"] (by decide)).2 "b" (by decide)

theorem lowerChar_eq_space (c : Char) (h : lowerChar c = ' ') : c = ' ' := by
  unfold lowerChar at h
  split at h <;> first
  | exact absurd h (by decide)
  | exact h

theorem xform_no_space (lowercase : Bool) (raw : String) :
    (xform true lowercase raw).data.all (fun ch => ch != ' ') = true := by
  cases lowercase with
  | false =>
    have hx : xform true false raw = stripSpaces raw := rfl
    rw [hx]
    simp only [stripSpaces, List.all_eq_true]
    intro c hc
    exact (List.mem_filter.mp hc).2
  | true =>
    have hx : xform true true raw = strLower (stripSpaces raw) := rfl
    rw [hx]
    simp only [strLower, stripSpaces, List.all_eq_true, List.mem_map]
    rintro c ⟨c0, hc0, rfl⟩
    have h0 := (List.mem_filter.mp hc0).2
    rw [bne_iff_ne] at h0 ⊢
    intro hc
    exact h0 (lowerChar_eq_space c0 hc)

/-- Claim C8, counterexample: normalization is `replace(" ", "")` — it
removes only space characters. A value containing a tab survives
`extract_unique_values` with `normalize=true` unchanged: the tab (and
any non-space whitespace) is not stripped. -/
theorem C8_counterexample :
    extract_unique_values ⟨"f.csv", true, ⟨["A"], [["a\tb"]]⟩⟩ "A" true false =
      .ok ["a\tb"] ∧
    extract_unique_values ⟨"f.csv", true, ⟨["A"], [["a\tb"]]⟩⟩ "A" true false ≠
      .ok ["ab"] := by
  refine ⟨by decide, by decide⟩

/-- Claim C8 (amended): with `normalize=true` the per-value
normalization removes every space character (U+0020) — no output value
of `extract_unique_values` contains a space — but only spaces: tabs,
newlines and other whitespace characters are left in place (see the
counterexample). -/
theorem C8_amended (src : CsvSource) (col : String) (lowercase : Bool)
    (out : List String)
    (h : extract_unique_values src col true lowercase = .ok out) :
    ∀ v ∈ out, v.data.all (fun ch => ch != ' ') = true := by
  intro v hv
  have hout := extract_ok_elim src col true lowercase out h
  rw [hout] at hv
  have hv2 := (sortBy_perm strLeB _).mem_iff.mp hv
  rcases uniqScan_origin _ _ _ _ _ _ _ hv2 with h1 | ⟨r, hr, raw, hcell, hraw, hxf⟩
  · cases h1
  · rw [← hxf]
    exact xform_no_space lowercase raw

/-- Witness for C8 (amended): concretely, `"a b"` is extracted as
`"ab"`, and no character of `"ab"` is a space. -/
theorem C8_witness :
    extract_unique_values ⟨"f.csv", true, ⟨["A"], [["a b"]]⟩⟩ "A" true false =
      .ok ["ab"] ∧
    ("ab" : String).data.all (fun ch => ch != ' ') = true := by
  refine ⟨by decide, ?_⟩
  exact (C8_amended ⟨"f.csv", true, ⟨["A"], [["a b"]]⟩⟩ "A" false ["ab"]
    (by decide)) "ab" (by decide)

